import Mathlib

/-!
Shallow embedding of `makevtt` (`src/main.py`): a converter from raw
timestamped transcripts to WebVTT subtitle files.

Modelling conventions:
* Python `datetime.time` values are modelled as the number of microseconds
  since midnight, i.e. `Fin 86400000000`.  `add_seconds` in the source
  combines the time with today's date, adds a `timedelta`, and takes `.time()`
  again, which is exactly addition of the timedelta (at microsecond
  resolution, `timedelta`'s precision) modulo 24 hours.  The model therefore
  takes the offset as a whole number of microseconds; every call in the
  program (`range` offsets in whole seconds, `-0.5 s`, `+5 s`) has an exact
  microsecond value.
* Python strings are `List Char`; `str.strip()` is `pyStrip` over the ASCII
  whitespace characters.
* Fallible code is embedded in `Option`: `split_time` returns `none` exactly
  where the source raises (`range()` with a zero step raises `ValueError`,
  `//` by zero raises `ZeroDivisionError`).
* The `while` loop of `split_text_by_sentences` does not always terminate
  (when the backward word walk reaches `start`, the cursor stops advancing),
  so that loop is embedded with explicit fuel; `none` means the loop has not
  finished within the given fuel.
-/

/-- One microsecond-indexed wall-clock time of day, the model of
Python's `datetime.time`. -/
abbrev Time := Fin 86400000000

/-- A subtitle cue `(start_time, end_time, text)`, the element type of the
source's `VttData` list. -/
abbrev Cue := Time × Time × List Char

/-- The characters removed by Python's `str.strip()` (ASCII part of
Python's whitespace set). -/
def pyIsSpace (c : Char) : Bool :=
  c = ' ' || c = '\t' || c = '\n' || c = '\r' || c = '\x0b' || c = '\x0c'

/-- Python `str.strip()`: remove leading and trailing whitespace. -/
def pyStrip (l : List Char) : List Char :=
  ((l.dropWhile pyIsSpace).reverse.dropWhile pyIsSpace).reverse

/-- Python `" ".join(texts)`. -/
def joinSpace (ts : List (List Char)) : List Char :=
  List.intercalate [' '] ts

/-- Python `range(a, b, step)` as a list, `none` when `step = 0`
(Python raises `ValueError: range() arg 3 must not be zero`). -/
def pyRange (a b step : Int) : Option (List Int) :=
  if step = 0 then none
  else if 0 < step then
    some ((List.range ((b - a + step - 1).toNat / step.toNat)).map
      (fun (i : Nat) => a + step * (i : Int)))
  else
    some ((List.range ((a - b + (-step) - 1).toNat / (-step).toNat)).map
      (fun (i : Nat) => a + step * (i : Int)))

/-- `add_seconds` (src/main.py:9-21): shift a time-of-day by an offset,
rolling over midnight.  The offset `us` is the `timedelta` measured in whole
microseconds (see the module docstring). -/
def add_seconds (t : Time) (us : Int) : Time :=
  ⟨(((t.val : Int) + us) % 86400000000).toNat, by omega⟩

/-- `time_to_seconds` (src/main.py:109-118): `t.hour*3600 + t.minute*60 +
t.second`, which for a microsecond-indexed time is division by 10^6. -/
def time_to_seconds (t : Time) : Nat :=
  t.val / 1000000

/-- `split_time` (src/main.py:121-151).  `none` models the `ValueError`
raised by `range` when `time_allotment = 0` and the `ZeroDivisionError`
when `count = 0`. -/
def split_time (start stop : Time) (count : Nat) : Option (List (Time × Time)) :=
  if count = 0 then none
  else
    let start_seconds : Int := time_to_seconds start
    let end_seconds : Int := time_to_seconds stop
    let total_duration := end_seconds - start_seconds
    let time_allotment := min 10 (Int.fdiv total_duration count)
    match pyRange 0 end_seconds time_allotment with
    | none => none
    | some offsets =>
      let start_times :=
        (offsets.map (fun seconds => add_seconds start (seconds * 1000000))).take count
      let end_times := start_times.drop 1 ++ [stop]
      some (start_times.zip end_times)

/-- `end_of_sentence_before` (src/main.py:188-201): scan the indices
`pos-1, pos-2, ..., 0` and return the first one holding a sentence-ending
character; `none` models the source's `-1`. -/
def end_of_sentence_before (text : List Char) : Nat → Option Nat
  | 0 => none
  | i + 1 =>
    if (text.getD i ' ') ∈ ['.', '?', '!', ','] then some i
    else end_of_sentence_before text i

/-- The backward word walk of `split_text_by_sentences`
(src/main.py:178-180): from `e`, step back while the character before the
boundary is not a space or newline and the boundary is still after
`start`. -/
def wordWalk (text : List Char) (start : Nat) : Nat → Nat
  | 0 => 0
  | e + 1 =>
    if start < e + 1 ∧ ¬ (text.getD e ' ') ∈ [' ', '\n'] then wordWalk text start e
    else e + 1

/-- The boundary chosen by one iteration of the `split_text_by_sentences`
loop (src/main.py:174-182): a sentence end within the window if there is one
at or after the cursor, otherwise the word-walk fallback from
`start + max_length`. -/
def chunkEnd (text : List Char) (max_length start : Nat) : Nat :=
  match end_of_sentence_before text (start + max_length + 1) with
  | none => wordWalk text start (start + max_length)
  | some e => if e < start then wordWalk text start (start + max_length) else e + 1

/-- The `while start < len(text)` loop of `split_text_by_sentences`
(src/main.py:167-185), with explicit fuel: `none` means the loop has not
finished within `fuel` iterations (the loop genuinely diverges when the
word walk collapses to the cursor, so a fuel bound is the faithful
embedding). -/
def splitLoop (text : List Char) (max_length : Nat) : Nat → Nat → Option (List (List Char))
  | 0, _ => none
  | fuel + 1, start =>
    if start < text.length then
      if text.length - start ≤ max_length then
        some [pyStrip (text.drop start)]
      else
        match splitLoop text max_length fuel (chunkEnd text max_length start) with
        | none => none
        | some rest =>
          some (pyStrip ((text.drop start).take (chunkEnd text max_length start - start))
            :: rest)
    else
      some []

/-- `split_text_by_sentences` (src/main.py:154-185). -/
def split_text_by_sentences (fuel : Nat) (text : List Char) (max_length : Nat := 120) :
    Option (List (List Char)) :=
  splitLoop text max_length fuel 0

/-- The word tokens of `re.split(r"\s+", text)` (src/main.py:215), with the
empty boundary tokens (skipped by the loop's `if not word: continue`)
already removed: the maximal runs of non-whitespace characters, accumulated
in reverse in `cur`. -/
def wordsOfAux : List Char → List Char → List (List Char)
  | [], cur => if cur.isEmpty then [] else [cur.reverse]
  | c :: cs, cur =>
    if pyIsSpace c then
      if cur.isEmpty then wordsOfAux cs [] else cur.reverse :: wordsOfAux cs []
    else wordsOfAux cs (c :: cur)

def wordsOf (text : List Char) : List (List Char) := wordsOfAux text []

/-- The `for word in words` accumulation loop of `split_into_lines`
(src/main.py:217-237), with the loop state (`current_line`, `lines`) made
explicit. -/
def silGo : List (List Char) → List Char → List (List Char) → List (List Char)
  | [], current_line, lines =>
    if current_line.isEmpty then lines else lines ++ [current_line]
  | w :: ws, current_line, lines =>
    if (pyStrip w).isEmpty then silGo ws current_line lines
    else if ¬ current_line.isEmpty ∧ 60 < (current_line ++ ' ' :: pyStrip w).length then
      silGo ws (pyStrip w) (lines ++ [current_line])
    else if current_line.isEmpty then silGo ws (pyStrip w) lines
    else silGo ws (current_line ++ ' ' :: pyStrip w) lines

/-- `split_into_lines` (src/main.py:204-238): wrap text into lines of at
most 60 characters, breaking at word boundaries. -/
def split_into_lines (text : List Char) : List (List Char) :=
  silGo (wordsOf text) [] []

/-- The value of an ASCII digit character. -/
def digitVal (c : Char) : Option Nat :=
  if c.isDigit then some (c.toNat - 48) else none

def digitsToNat (ds : List Char) : Nat :=
  ds.foldl (fun acc c => acc * 10 + (c.toNat - 48)) 0

/-- The fractional-second suffix accepted after `HH:MM:SS`: nothing, or a
dot followed by one to six digits, scaled to microseconds. -/
def parseFrac : List Char → Option Nat
  | [] => some 0
  | '.' :: ds =>
    if ds ≠ [] ∧ ds.length ≤ 6 ∧ ds.all Char.isDigit then
      some (digitsToNat ds * 10 ^ (6 - ds.length))
    else none
  | _ => none

/-- Build a `Time` from components, `none` when a component is out of
range. -/
def mkTime (h m s us : Nat) : Option Time :=
  if hok : h < 24 ∧ m < 60 ∧ s < 60 ∧ us < 1000000 then
    some ⟨((h * 60 + m) * 60 + s) * 1000000 + us, by omega⟩
  else none

/-- `str_to_time` (src/main.py:24-36): `time.fromisoformat` restricted to
the `HH:MM:SS[.ffffff]` local-time shape that the raw input format
specifies; `none` models the `ValueError` branch (returning `None`). -/
def str_to_time (text : List Char) : Option Time :=
  match text with
  | h1 :: h2 :: ':' :: m1 :: m2 :: ':' :: s1 :: s2 :: rest =>
    match digitVal h1, digitVal h2, digitVal m1, digitVal m2,
        digitVal s1, digitVal s2, parseFrac rest with
    | some a, some b, some c, some d, some e, some f, some us =>
      mkTime (10 * a + b) (10 * c + d) (10 * e + f) us
    | _, _, _, _, _, _, _ => none
  | _ => none

/-- The mutable loop state of `read_raw_data` (src/main.py:51-66):
the cues emitted so far, the pending start time and the pending list of
body-text lines. -/
structure ParseState where
  result : List Cue
  start_time : Time
  texts : List (List Char)
deriving Repr, DecidableEq

/-- One iteration of the `for line in file` loop of `read_raw_data`
(src/main.py:55-66). -/
def readStep (st : ParseState) (line : List Char) : ParseState :=
  match str_to_time (pyStrip line) with
  | some the_time =>
    if st.texts.isEmpty then st
    else
      { result := st.result ++
          [(st.start_time, add_seconds the_time (-500000), joinSpace st.texts)],
        start_time := the_time,
        texts := [] }
  | none => { st with texts := st.texts ++ [pyStrip line] }

/-- `read_raw_data` (src/main.py:39-70) on the list of lines of the input
file: fold the loop body over the lines starting from
`(result, start_time, texts) = ([], 00:00:00, [])`, then flush any pending
text as a final cue ending 5 seconds after its start.  This is a total
function: no line can make it fail. -/
def read_raw_data (lines : List (List Char)) : List Cue :=
  let st := lines.foldl readStep ⟨[], ⟨0, by omega⟩, []⟩
  if st.texts.isEmpty then st.result
  else st.result ++ [(st.start_time, add_seconds st.start_time 5000000, joinSpace st.texts)]

/-- `split_subtitle` (src/main.py:93-106): split one long subtitle into
several, zipping the text chunks with the time intervals; `none` propagates
a failing `split_time` (a raised exception) or exhausted splitter fuel. -/
def split_subtitle (fuel : Nat) (start stop : Time) (text : List Char) :
    Option (List Cue) :=
  match split_text_by_sentences fuel text 120 with
  | none => none
  | some lines =>
    match split_time start stop lines.length with
    | none => none
    | some times => some (List.zipWith (fun line se => (se.1, se.2, line)) lines times)

/-- The per-cue branch of the `split_subtitles` loop (src/main.py:84-89),
i.e. the design's `resegment(cue)`: a cue whose text has at most
`60 * 2 = 120` characters passes through unchanged, a longer one is
split. -/
def resegment (fuel : Nat) (cue : Cue) : Option (List Cue) :=
  if cue.2.2.length ≤ 60 * 2 then some [cue]
  else split_subtitle fuel cue.1 cue.2.1 cue.2.2

/-- `split_subtitles` (src/main.py:73-90). -/
def split_subtitles (fuel : Nat) : List Cue → Option (List Cue)
  | [] => some []
  | cue :: rest =>
    match resegment fuel cue, split_subtitles fuel rest with
    | some cs, some others => some (cs ++ others)
    | _, _ => none

theorem add_seconds_zero (t : Time) : add_seconds t 0 = t := by
  unfold add_seconds
  apply Fin.ext
  have h := t.isLt
  simp only []
  omega

example : split_time (0 : Time) (0 : Time) 1 = none := by decide

example : split_time (0 : Time) (1000000 : Time) 1 =
    some [((0 : Time), (1000000 : Time))] := by decide

/-- C1 (counterexample): with `start = end = 00:00:00` and `count = 1` the
allotment `(toSeconds end - toSeconds start) // count` is `0`, and
`split_time` does **not** return a sequence of pairs: it fails (`range()`
with a zero step raises `ValueError`, modelled by `none`).  This refutes the
claim that the call "still returns a sequence of (start, end) pairs" and
"does not fail or raise". -/
theorem split_time_zero_allotment_cex :
    split_time (0 : Time) (0 : Time) 1 = none := by decide

/-- C1 (amended): for every `start ≤ end` and `count ≥ 1` such that
`(toSeconds end - toSeconds start) // count` computes to `0`, `split_time`
fails (Python `ValueError` from `range()` with a zero step, modelled by
`none`); it never produces zero-length steps. -/
theorem split_time_zero_allotment_raises (start stop : Time) (count : Nat)
    (hle : start.val ≤ stop.val) (hc : 1 ≤ count)
    (hz : Int.fdiv ((time_to_seconds stop : Int) - (time_to_seconds start : Int))
      (count : Int) = 0) :
    split_time start stop count = none := by
  unfold split_time
  rw [if_neg (by omega)]
  simp only [hz]
  norm_num [pyRange]

/-- Witness for C1's amended theorem at `start = end = 00:00:00`,
`count = 1`. -/
theorem split_time_zero_allotment_raises_witness :
    split_time (0 : Time) (0 : Time) 1 = none :=
  split_time_zero_allotment_raises 0 0 1 (by decide) (by decide) (by decide)

theorem split_time_eq_of_pyRange (start stop : Time) (count : Nat)
    (hc : ¬ count = 0) (rl : List Int)
    (hpr : pyRange 0 (time_to_seconds stop : Int)
      (min 10 (Int.fdiv ((time_to_seconds stop : Int) - (time_to_seconds start : Int))
        (count : Int))) = some rl) :
    split_time start stop count =
      some (((rl.map (fun seconds => add_seconds start (seconds * 1000000))).take count).zip
        (((rl.map (fun seconds => add_seconds start (seconds * 1000000))).take count).drop 1
          ++ [stop])) := by
  unfold split_time
  rw [if_neg hc]
  simp only [hpr]

/-- C2: for `start ≤ end`, `count ≥ 1` and
`toSeconds end - toSeconds start ≥ count`, `split_time` succeeds and the last
returned interval's end equals the `end` parameter exactly. -/
theorem split_time_last_end (start stop : Time) (count : Nat)
    (hle : start.val ≤ stop.val) (hc : 1 ≤ count)
    (htot : (count : Int) ≤
      (time_to_seconds stop : Int) - (time_to_seconds start : Int)) :
    ∃ l, split_time start stop count = some l ∧
      (l.map Prod.snd).getLast? = some stop := by
  have hc0 : (0 : Int) < (count : Int) := by omega
  have hq : 1 ≤ Int.fdiv ((time_to_seconds stop : Int) - (time_to_seconds start : Int))
      (count : Int) := by
    rw [Int.fdiv_eq_ediv _ (by omega)]
    rw [Int.le_ediv_iff_mul_le hc0]
    omega
  set q := Int.fdiv ((time_to_seconds stop : Int) - (time_to_seconds start : Int))
    (count : Int) with hqdef
  have hallot : 1 ≤ min 10 q := by omega
  have hes : 1 ≤ time_to_seconds stop := by omega
  have hpr : pyRange 0 (time_to_seconds stop : Int) (min 10 q) =
      some ((List.range (((time_to_seconds stop : Int) - 0 + min 10 q - 1).toNat /
        (min 10 q).toNat)).map (fun (i : Nat) => 0 + min 10 q * (i : Int))) := by
    unfold pyRange
    rw [if_neg (by omega), if_pos (by omega)]
  set n := ((time_to_seconds stop : Int) - 0 + min 10 q - 1).toNat / (min 10 q).toNat
    with hndef
  have hn : 1 ≤ n := by
    rw [hndef, Nat.le_div_iff_mul_le (by omega)]
    omega
  set rl := (List.range n).map (fun (i : Nat) => (0 : Int) + min 10 q * (i : Int))
    with hrldef
  set sts := (rl.map (fun seconds => add_seconds start (seconds * 1000000))).take count
    with hstsdef
  have hrl_len : rl.length = n := by
    rw [hrldef, List.length_map, List.length_range]
  have hsts_len : sts.length = min count n := by
    rw [hstsdef, List.length_take, List.length_map, hrl_len]
  have hsts_pos : 1 ≤ sts.length := by omega
  have hends_len : (sts.drop 1 ++ [stop]).length = sts.length := by
    simp
    omega
  refine ⟨sts.zip (sts.drop 1 ++ [stop]),
    split_time_eq_of_pyRange start stop count (by omega) rl hpr, ?_⟩
  rw [List.map_snd_zip _ _ (le_of_eq hends_len)]
  exact List.getLast?_concat _

/-- Witness for C2 at `start = 00:00:00`, `end = 00:00:01`, `count = 1`. -/
theorem split_time_last_end_witness :
    ∃ l, split_time (0 : Time) (1000000 : Time) 1 = some l ∧
      (l.map Prod.snd).getLast? = some (1000000 : Time) :=
  split_time_last_end 0 1000000 1 (by decide) (by decide) (by decide)

example : split_text_by_sentences 1 "hi there".toList 120 =
    some ["hi there".toList] := by decide

example : split_text_by_sentences 3 "ab. cd. ef".toList 4 =
    some ["ab.".toList, "cd.".toList, "ef".toList] := by decide

example : split_text_by_sentences 3 "abcd efgh".toList 5 =
    some ["abcd".toList, "efgh".toList] := by decide

example : split_text_by_sentences 2 "a,".toList 1 = some ["a,".toList] := by decide

example : ∀ fuel, fuel ≤ 5 → split_text_by_sentences fuel "abc".toList 1 = none := by decide

theorem pyStrip_sublist (l : List Char) : List.Sublist (pyStrip l) l := by
  have h1 : List.Sublist ((l.dropWhile pyIsSpace).reverse.dropWhile pyIsSpace)
      (l.dropWhile pyIsSpace).reverse := List.dropWhile_sublist _
  have h2 := h1.reverse
  simp only [List.reverse_reverse] at h2
  exact h2.trans (List.dropWhile_sublist _)

theorem pyStrip_length_le (l : List Char) : (pyStrip l).length ≤ l.length :=
  (pyStrip_sublist l).length_le

theorem pyStrip_eq_of_length (l : List Char) (h : (pyStrip l).length = l.length) :
    pyStrip l = l :=
  (pyStrip_sublist l).eq_of_length h

theorem mem_of_mem_pyStrip {c : Char} {l : List Char} (h : c ∈ pyStrip l) : c ∈ l :=
  (pyStrip_sublist l).mem h

/-- C3 (counterexample): for the empty text the loop body never runs, so
`split_text_by_sentences` returns the empty sequence, not the one-element
sequence `[trim("")] = [""]` the claim asserts. -/
theorem split_text_by_sentences_empty_cex :
    split_text_by_sentences 1 ([] : List Char) 120 = some [] ∧
      ([] : List (List Char)) ≠ [pyStrip ([] : List Char)] := by decide

/-- C3 (amended): for every **nonempty** text `t` with `len(t) ≤ maxLength`
(and enough fuel for the single loop iteration), `split_text_by_sentences`
returns exactly the one-element sequence `[trim(t)]`; for the empty text it
returns the empty sequence. -/
theorem split_text_by_sentences_short (fuel : Nat) (text : List Char) (max_length : Nat)
    (hne : text ≠ []) (hlen : text.length ≤ max_length) (hfuel : 1 ≤ fuel) :
    split_text_by_sentences fuel text max_length = some [pyStrip text] := by
  obtain ⟨f, rfl⟩ : ∃ f, fuel = f + 1 := ⟨fuel - 1, by omega⟩
  unfold split_text_by_sentences splitLoop
  rw [if_pos (List.length_pos.mpr hne), if_pos (by omega), List.drop_zero]

/-- Witness for C3's amended theorem at `t = "hi."`, `maxLength = 120`. -/
theorem split_text_by_sentences_short_witness :
    split_text_by_sentences 1 "hi.".toList 120 = some [pyStrip "hi.".toList] :=
  split_text_by_sentences_short 1 "hi.".toList 120 (by decide) (by decide) (by decide)

theorem wordWalk_ge (text : List Char) (start : Nat) :
    ∀ e, start ≤ e → start ≤ wordWalk text start e := by
  intro e
  induction e with
  | zero => intro h; unfold wordWalk; omega
  | succ k ih =>
    intro _
    unfold wordWalk
    split
    next hc => exact ih (by have := hc.1; omega)
    next => omega

theorem wordWalk_le (text : List Char) (start : Nat) :
    ∀ e, wordWalk text start e ≤ e := by
  intro e
  induction e with
  | zero => unfold wordWalk; omega
  | succ k ih => unfold wordWalk; split <;> omega

theorem end_of_sentence_before_lt (text : List Char) :
    ∀ pos e, end_of_sentence_before text pos = some e → e < pos := by
  intro pos
  induction pos with
  | zero => intro e h; simp [end_of_sentence_before] at h
  | succ i ih =>
    intro e h
    unfold end_of_sentence_before at h
    split at h
    · cases h; omega
    · exact Nat.lt_succ_of_lt (ih e h)

theorem end_of_sentence_before_mem (text : List Char) :
    ∀ pos e, end_of_sentence_before text pos = some e →
      (text.getD e ' ') ∈ ['.', '?', '!', ','] := by
  intro pos
  induction pos with
  | zero => intro e h; simp [end_of_sentence_before] at h
  | succ i ih =>
    intro e h
    unfold end_of_sentence_before at h
    split at h
    next hc => cases h; exact hc
    next => exact ih e h

theorem chunkEnd_ge (text : List Char) (max_length start : Nat) :
    start ≤ chunkEnd text max_length start := by
  unfold chunkEnd
  split
  next => exact wordWalk_ge _ _ _ (by omega)
  next e _ =>
    split
    next => exact wordWalk_ge _ _ _ (by omega)
    next h => omega

theorem splitLoop_partition (text : List Char) (max_length : Nat) :
    ∀ fuel start chunks, splitLoop text max_length fuel start = some chunks →
      ∃ slices : List (List Char), slices.flatten = text.drop start ∧
        chunks = slices.map pyStrip := by
  intro fuel
  induction fuel with
  | zero => intro start chunks h; simp [splitLoop] at h
  | succ f ih =>
    intro start chunks h
    unfold splitLoop at h
    by_cases h1 : start < text.length
    · rw [if_pos h1] at h
      by_cases h2 : text.length - start ≤ max_length
      · rw [if_pos h2] at h
        refine ⟨[text.drop start], by simp, ?_⟩
        cases h
        simp
      · rw [if_neg h2] at h
        cases heq : splitLoop text max_length f (chunkEnd text max_length start) with
        | none => rw [heq] at h; cases h
        | some rest =>
          rw [heq] at h
          obtain ⟨slices, hflat, hchunks⟩ := ih _ rest heq
          cases h
          refine ⟨(text.drop start).take (chunkEnd text max_length start - start)
            :: slices, ?_, by simp [hchunks]⟩
          have hge := chunkEnd_ge text max_length start
          have hdd : text.drop (chunkEnd text max_length start) =
              (text.drop start).drop (chunkEnd text max_length start - start) := by
            rw [List.drop_drop]
            congr 1
            omega
          simp only [List.flatten_cons, hflat, hdd, List.take_append_drop]
    · rw [if_neg h1] at h
      cases h
      refine ⟨[], ?_, by simp⟩
      rw [List.drop_eq_nil_of_le (show text.length ≤ start by omega)]
      simp

/-- C4: whenever `split_text_by_sentences` returns, its chunks are exactly
the whitespace-trimmed images of a contiguous, in-order partition of the
input: there is a list of untrimmed slices whose concatenation is the
original text, and the returned chunks are those slices trimmed. -/
theorem split_text_by_sentences_partition (fuel : Nat) (text : List Char)
    (max_length : Nat) (chunks : List (List Char))
    (h : split_text_by_sentences fuel text max_length = some chunks) :
    ∃ slices : List (List Char), slices.flatten = text ∧
      chunks = slices.map pyStrip := by
  obtain ⟨slices, hflat, hchunks⟩ := splitLoop_partition text max_length fuel 0 chunks h
  exact ⟨slices, by simpa using hflat, hchunks⟩

theorem chunk_bound_step (text : List Char) (max_length start : Nat)
    (hwin : start + max_length < text.length) :
    (pyStrip ((text.drop start).take (chunkEnd text max_length start - start))).length
        ≤ max_length + 1 ∧
      (max_length <
          (pyStrip ((text.drop start).take (chunkEnd text max_length start - start))).length →
        ∃ ch, (pyStrip ((text.drop start).take
            (chunkEnd text max_length start - start))).getLast? = some ch ∧
          ch ∈ ['.', '?', '!', ',']) := by
  have hfall : ∀ hq : chunkEnd text max_length start =
      wordWalk text start (start + max_length),
      (pyStrip ((text.drop start).take (chunkEnd text max_length start - start))).length
        ≤ max_length := by
    intro hq
    have hl := wordWalk_le text start (start + max_length)
    calc (pyStrip ((text.drop start).take (chunkEnd text max_length start - start))).length
        ≤ ((text.drop start).take (chunkEnd text max_length start - start)).length :=
          pyStrip_length_le _
      _ ≤ chunkEnd text max_length start - start := by
          rw [List.length_take]; omega
      _ ≤ max_length := by rw [hq]; omega
  cases heo : end_of_sentence_before text (start + max_length + 1) with
  | none =>
    have hq : chunkEnd text max_length start = wordWalk text start (start + max_length) := by
      unfold chunkEnd; rw [heo]
    have := hfall hq
    exact ⟨by omega, by omega⟩
  | some e =>
    by_cases hlt : e < start
    · have hq : chunkEnd text max_length start =
          wordWalk text start (start + max_length) := by
        unfold chunkEnd; rw [heo]; simp [hlt]
      have := hfall hq
      exact ⟨by omega, by omega⟩
    · have hq : chunkEnd text max_length start = e + 1 := by
        unfold chunkEnd; rw [heo]; simp [hlt]
      have helt : e < start + max_length + 1 := end_of_sentence_before_lt _ _ _ heo
      have hslice : ((text.drop start).take (chunkEnd text max_length start - start)).length
          = min (e + 1 - start) (text.length - start) := by
        rw [hq, List.length_take, List.length_drop]
      have hchle : (pyStrip ((text.drop start).take
          (chunkEnd text max_length start - start))).length ≤
          ((text.drop start).take (chunkEnd text max_length start - start)).length :=
        pyStrip_length_le _
      refine ⟨by omega, ?_⟩
      intro hgt
      have heq : (pyStrip ((text.drop start).take
          (chunkEnd text max_length start - start))).length =
          ((text.drop start).take (chunkEnd text max_length start - start)).length := by
        omega
      have hc := pyStrip_eq_of_length _ heq
      have hk : ((text.drop start).take (chunkEnd text max_length start - start)).length
          = max_length + 1 := by omega
      have hee : e = start + max_length := by omega
      have helen : start + max_length < text.length := by omega
      refine ⟨text.get ⟨start + max_length, helen⟩, ?_, ?_⟩
      · rw [hc, List.getLast?_eq_getElem?, hk, Nat.add_sub_cancel]
        rw [List.getElem?_take_of_lt
          (show max_length < chunkEnd text max_length start - start by omega)]
        rw [List.getElem?_drop]
        exact List.getElem?_eq_getElem helen
      · have hmem := end_of_sentence_before_mem text _ _ heo
        rw [hee] at hmem
        rw [List.getD_eq_getElem?_getD, List.getElem?_eq_getElem helen] at hmem
        exact hmem

theorem splitLoop_bound (text : List Char) (max_length : Nat) :
    ∀ fuel start chunks, splitLoop text max_length fuel start = some chunks →
      ∀ c ∈ chunks, c.length ≤ max_length + 1 ∧
        (max_length < c.length →
          ∃ ch, c.getLast? = some ch ∧ ch ∈ ['.', '?', '!', ',']) := by
  intro fuel
  induction fuel with
  | zero => intro start chunks h; simp [splitLoop] at h
  | succ f ih =>
    intro start chunks h
    unfold splitLoop at h
    by_cases h1 : start < text.length
    · rw [if_pos h1] at h
      by_cases h2 : text.length - start ≤ max_length
      · rw [if_pos h2] at h
        cases h
        intro c hc
        rw [List.mem_singleton] at hc
        subst hc
        have hle : (pyStrip (text.drop start)).length ≤ max_length := by
          have := pyStrip_length_le (text.drop start)
          rw [List.length_drop] at this
          omega
        exact ⟨by omega, by omega⟩
      · rw [if_neg h2] at h
        cases heq : splitLoop text max_length f (chunkEnd text max_length start) with
        | none => rw [heq] at h; cases h
        | some rest =>
          rw [heq] at h
          cases h
          intro c hc
          rw [List.mem_cons] at hc
          cases hc with
          | inl hc =>
            subst hc
            exact chunk_bound_step text max_length start (by omega)
          | inr hc => exact ih _ rest heq c hc
    · rw [if_neg h1] at h
      cases h
      intro c hc
      simp at hc

/-- C10 (counterexample): with `maxLength = 1` and text `"a,"`, the single
(and hence final) returned chunk is the sentence-boundary chunk `"a,"` of
length `maxLength + 1 = 2`, so "the final chunk never exceeds `maxLength`"
is false as stated. -/
theorem split_text_by_sentences_final_chunk_cex :
    split_text_by_sentences 2 "a,".toList 1 = some ["a,".toList] ∧
      (["a,".toList] : List (List Char)).getLast? = some "a,".toList ∧
      1 < "a,".toList.length := by decide

/-- C10 (amended): for every text and `maxLength ≥ 1`, every chunk returned
by `split_text_by_sentences` has length at most `maxLength + 1`, and any
chunk exceeding `maxLength` is a sentence-boundary chunk: it ends with one
of `. ? ! ,` (located at relative position `maxLength` in the untrimmed
slice).  Fallback (word-boundary or mid-word) chunks and the final
remainder chunk never exceed `maxLength`, but such an over-long
sentence-boundary chunk may occur anywhere, including as the last element
of the returned sequence. -/
theorem split_text_by_sentences_chunk_bound (fuel : Nat) (text : List Char)
    (max_length : Nat) (chunks : List (List Char)) (hmax : 1 ≤ max_length)
    (h : split_text_by_sentences fuel text max_length = some chunks) :
    ∀ c ∈ chunks, c.length ≤ max_length + 1 ∧
      (max_length < c.length →
        ∃ ch, c.getLast? = some ch ∧ ch ∈ ['.', '?', '!', ',']) :=
  splitLoop_bound text max_length fuel 0 chunks h

/-- Witness for C10's amended theorem at `text = "ab, cd"`, `maxLength = 2`:
the first chunk `"ab,"` has length `maxLength + 1` and ends in a comma. -/
theorem split_text_by_sentences_chunk_bound_witness :
    "ab,".toList.length ≤ 2 + 1 ∧
      (2 < "ab,".toList.length →
        ∃ ch, "ab,".toList.getLast? = some ch ∧ ch ∈ ['.', '?', '!', ',']) :=
  split_text_by_sentences_chunk_bound 3 "ab, cd".toList 2
    ["ab,".toList, [], "cd".toList] (by decide) (by decide) "ab,".toList (by decide)

/-- Witness for C4 at `text = "ab. cd. ef"`, `maxLength = 4`. -/
theorem split_text_by_sentences_partition_witness :
    ∃ slices : List (List Char), slices.flatten = "ab. cd. ef".toList ∧
      ["ab.".toList, "cd.".toList, "ef".toList] = slices.map pyStrip :=
  split_text_by_sentences_partition 3 "ab. cd. ef".toList 4
    ["ab.".toList, "cd.".toList, "ef".toList] (by decide)

example : split_into_lines "hello world".toList = ["hello world".toList] := by decide

example : split_into_lines
    "aaaaaaaaaaaaaaaaaaaaaaaaaaaaaaaaaaa bbbbbbbbbbbbbbbbbbbbbbbbbbbbbbbbbbb".toList =
    ["aaaaaaaaaaaaaaaaaaaaaaaaaaaaaaaaaaa".toList,
      "bbbbbbbbbbbbbbbbbbbbbbbbbbbbbbbbbbb".toList] := by decide

example : split_into_lines "   ".toList = [] := by decide

theorem wordsOfAux_no_space (cs : List Char) :
    ∀ cur, (∀ c ∈ cur, pyIsSpace c = false) →
      ∀ w ∈ wordsOfAux cs cur, ∀ c ∈ w, pyIsSpace c = false := by
  induction cs with
  | nil =>
    intro cur hcur w hw
    unfold wordsOfAux at hw
    split at hw
    · simp at hw
    · rw [List.mem_singleton] at hw
      subst hw
      intro c hc
      exact hcur c (List.mem_reverse.mp hc)
  | cons a cs ih =>
    intro cur hcur w hw
    unfold wordsOfAux at hw
    by_cases ha : pyIsSpace a
    · rw [if_pos ha] at hw
      split at hw
      · exact ih [] (by simp) w hw
      · rw [List.mem_cons] at hw
        cases hw with
        | inl hw =>
          subst hw
          intro c hc
          exact hcur c (List.mem_reverse.mp hc)
        | inr hw => exact ih [] (by simp) w hw
    · rw [if_neg ha] at hw
      refine ih (a :: cur) ?_ w hw
      intro c hc
      rw [List.mem_cons] at hc
      cases hc with
      | inl hc => subst hc; exact Bool.eq_false_iff.mpr ha
      | inr hc => exact hcur c hc

theorem wordsOf_no_space (text : List Char) :
    ∀ w ∈ wordsOf text, ∀ c ∈ w, pyIsSpace c = false :=
  wordsOfAux_no_space text [] (by simp)

theorem line_ok_of_state (l : List Char) (hne : ¬ l.isEmpty = true)
    (hq : l.isEmpty = true ∨ l.length ≤ 60 ∨ ∀ c ∈ l, pyIsSpace c = false) :
    l.length ≤ 60 ∨ (60 < l.length ∧ ∀ c ∈ l, pyIsSpace c = false) := by
  rcases hq with hq | hq | hq
  · exact absurd hq hne
  · exact Or.inl hq
  · by_cases hlen : l.length ≤ 60
    · exact Or.inl hlen
    · exact Or.inr ⟨by omega, hq⟩

theorem silGo_inv :
    ∀ (ws : List (List Char)) (current_line : List Char) (lines : List (List Char)),
      (∀ w ∈ ws, ∀ c ∈ w, pyIsSpace c = false) →
      (current_line.isEmpty = true ∨ current_line.length ≤ 60 ∨
        ∀ c ∈ current_line, pyIsSpace c = false) →
      (∀ l ∈ lines, l.length ≤ 60 ∨ (60 < l.length ∧ ∀ c ∈ l, pyIsSpace c = false)) →
      ∀ l ∈ silGo ws current_line lines,
        l.length ≤ 60 ∨ (60 < l.length ∧ ∀ c ∈ l, pyIsSpace c = false) := by
  intro ws
  induction ws with
  | nil =>
    intro current_line lines _ hcur hlines l hl
    unfold silGo at hl
    split at hl
    · exact hlines l hl
    next hne =>
      rw [List.mem_append, List.mem_singleton] at hl
      cases hl with
      | inl hl => exact hlines l hl
      | inr hl => subst hl; exact line_ok_of_state _ hne hcur
  | cons w ws ih =>
    intro current_line lines hws hcur hlines l hl
    have hword : ∀ c ∈ pyStrip w, pyIsSpace c = false := by
      intro c hc
      exact hws w (List.mem_cons_self _ _) c (mem_of_mem_pyStrip hc)
    have hws' : ∀ w' ∈ ws, ∀ c ∈ w', pyIsSpace c = false := by
      intro w' hw'
      exact hws w' (List.mem_cons_of_mem _ hw')
    unfold silGo at hl
    by_cases h1 : (pyStrip w).isEmpty = true
    · rw [if_pos h1] at hl
      exact ih current_line lines hws' hcur hlines l hl
    · rw [if_neg h1] at hl
      by_cases h2 : ¬ current_line.isEmpty = true ∧
          60 < (current_line ++ ' ' :: pyStrip w).length
      · rw [if_pos h2] at hl
        refine ih (pyStrip w) (lines ++ [current_line]) hws'
          (Or.inr (Or.inr hword)) ?_ l hl
        intro l' hl'
        rw [List.mem_append, List.mem_singleton] at hl'
        cases hl' with
        | inl hl' => exact hlines l' hl'
        | inr hl' => subst hl'; exact line_ok_of_state _ h2.1 hcur
      · rw [if_neg h2] at hl
        by_cases h3 : current_line.isEmpty = true
        · rw [if_pos h3] at hl
          exact ih (pyStrip w) lines hws' (Or.inr (Or.inr hword)) hlines l hl
        · rw [if_neg h3] at hl
          refine ih (current_line ++ ' ' :: pyStrip w) lines hws'
            (Or.inr (Or.inl ?_)) hlines l hl
          rw [Decidable.not_and_iff_or_not] at h2
          rcases h2 with h2 | h2
          · exact absurd (by exact fun hh => h2 hh) (by simp [h3])
          · omega

/-- C5: every line produced by `split_into_lines` (the line wrapper with
`maxWidth = 60`) either has length at most 60, or is a single word longer
than 60 characters (it contains no whitespace at all, so word integrity
beats the width limit). -/
theorem split_into_lines_width (text : List Char) (line : List Char)
    (h : line ∈ split_into_lines text) :
    line.length ≤ 60 ∨ (60 < line.length ∧ ∀ c ∈ line, pyIsSpace c = false) :=
  silGo_inv (wordsOf text) [] [] (wordsOf_no_space text) (Or.inl rfl)
    (by intro l hl; simp at hl) line h

/-- Witness for C5 at `text = "hello world"`. -/
theorem split_into_lines_width_witness :
    "hello world".toList.length ≤ 60 ∨
      (60 < "hello world".toList.length ∧
        ∀ c ∈ "hello world".toList, pyIsSpace c = false) :=
  split_into_lines_width "hello world".toList "hello world".toList (by decide)

example : str_to_time "00:00:01".toList = some (1000000 : Time) := by decide

example : str_to_time "00:00:04.5".toList = some (4500000 : Time) := by decide

example : str_to_time "Hello world.".toList = none := by decide

example : str_to_time "12:34:61".toList = none := by decide

example : read_raw_data
    ["00:00:01".toList, "Hello world.".toList, "00:00:05".toList, "Bye.".toList] =
    [((0 : Time), (4500000 : Time), "Hello world.".toList),
      ((5000000 : Time), (10000000 : Time), "Bye.".toList)] := by decide

/-- C8 (counterexample): on the input lines
`["00:00:01", "Hello world.", "00:00:05"]` the first timestamp line
`00:00:01` arrives before any body text and is skipped entirely: the
initial cue's start time stays `00:00:00` (it is *not* set to `00:00:01`,
i.e. not to `1000000` microseconds), refuting the claim that the first
timestamp line "sets the start time of the initial cue". -/
theorem read_raw_data_first_timestamp_cex :
    ((read_raw_data ["00:00:01".toList, "Hello world.".toList,
        "00:00:05".toList]).head?).map (fun c => c.1) = some (0 : Time) ∧
      (0 : Time) ≠ (1000000 : Time) := by decide

/-- C8 (amended): a timestamp line that arrives while no body text has been
collected is skipped entirely: the parser state is unchanged, so it neither
closes a cue nor sets the pending start time, which keeps its previous
value (for the first timestamp line of a file, `00:00:00`). -/
theorem readStep_skip_leading_timestamp (st : ParseState) (line : List Char)
    (ht : (str_to_time (pyStrip line)).isSome) (hempty : st.texts = []) :
    readStep st line = st := by
  obtain ⟨t, heq⟩ := Option.isSome_iff_exists.mp ht
  unfold readStep
  rw [heq]
  simp [hempty]

/-- Witness for C8's amended theorem: the empty-state parser skips the
timestamp line `00:00:01`. -/
theorem readStep_skip_leading_timestamp_witness :
    readStep ⟨[], ⟨0, by omega⟩, []⟩ "00:00:01".toList = ⟨[], ⟨0, by omega⟩, []⟩ :=
  readStep_skip_leading_timestamp _ _ (by decide) rfl

/-- C9: a line that fails to parse as a timestamp never makes the parser
fail: the loop body reclassifies it as body text, appending the stripped
line to the pending cue's text lines (later concatenated space-separated by
`joinSpace` when the cue is closed), leaving the emitted cues and the
pending start time untouched.  (`read_raw_data` itself is a total function
of its input lines, so parsing a whole file raises no error for malformed
timestamp lines.) -/
theorem readStep_malformed_timestamp (st : ParseState) (line : List Char)
    (h : str_to_time (pyStrip line) = none) :
    readStep st line =
      { result := st.result, start_time := st.start_time,
        texts := st.texts ++ [pyStrip line] } := by
  unfold readStep
  rw [h]

/-- Witness for C9 at the non-timestamp line `"Hello world."`. -/
theorem readStep_malformed_timestamp_witness :
    readStep ⟨[], ⟨0, by omega⟩, []⟩ "Hello world.".toList =
      ⟨[], ⟨0, by omega⟩, [pyStrip "Hello world.".toList]⟩ :=
  readStep_malformed_timestamp _ _ (by decide)

/-- C6: `resegment` on a cue whose text has length at most the threshold
120 returns the one-element sequence holding that cue unchanged — neither
its text nor its times are re-split. -/
theorem resegment_short_identity (fuel : Nat) (cue : Cue)
    (h : cue.2.2.length ≤ 120) :
    resegment fuel cue = some [cue] := by
  unfold resegment
  rw [if_pos (by omega)]

/-- Witness for C6 at the cue `(00:00:00, 00:00:02, "hi there.")`. -/
theorem resegment_short_identity_witness :
    resegment 0 ((0 : Time), (2000000 : Time), "hi there.".toList) =
      some [((0 : Time), (2000000 : Time), "hi there.".toList)] :=
  resegment_short_identity 0 _ (by decide)

theorem zipWith_head_eq {α β γ : Type} (f : α → β → γ) (as : List α) (bs : List β)
    (x : γ) (h : (List.zipWith f as bs).head? = some x) :
    ∃ a b, as.head? = some a ∧ bs.head? = some b ∧ x = f a b := by
  cases as with
  | nil => simp at h
  | cons a as =>
    cases bs with
    | nil => simp at h
    | cons b bs =>
      simp only [List.zipWith_cons_cons, List.head?_cons, Option.some.injEq] at h
      exact ⟨a, b, rfl, rfl, h.symm⟩

theorem range_map_head (m : Nat) (f : Nat → Int) (x : Int)
    (hx : ((List.range m).map f).head? = some x) : x = f 0 := by
  cases m with
  | zero => simp at hx
  | succ k =>
    rw [List.range_succ_eq_map] at hx
    simp at hx
    exact hx.symm

theorem pyRange_zero_head (b step : Int) (rl : List Int)
    (h : pyRange 0 b step = some rl) (x : Int) (hx : rl.head? = some x) :
    x = 0 := by
  unfold pyRange at h
  by_cases h0 : step = 0
  · rw [if_pos h0] at h; cases h
  · rw [if_neg h0] at h
    by_cases hpos : 0 < step
    · rw [if_pos hpos] at h
      cases h
      have := range_map_head _ _ _ hx
      simpa using this
    · rw [if_neg hpos] at h
      cases h
      have := range_map_head _ _ _ hx
      simpa using this

theorem split_time_head (s e : Time) (n : Nat) (ts : List (Time × Time))
    (hts : split_time s e n = some ts) (p : Time × Time)
    (hp : ts.head? = some p) : p.1 = s := by
  by_cases hn : n = 0
  · unfold split_time at hts; rw [if_pos hn] at hts; cases hts
  · cases hpr : pyRange 0 (time_to_seconds e : Int)
        (min 10 (Int.fdiv ((time_to_seconds e : Int) - (time_to_seconds s : Int))
          (n : Int))) with
    | none =>
      unfold split_time at hts
      rw [if_neg hn] at hts
      simp only [hpr] at hts
      exact Option.noConfusion hts
    | some rl =>
      rw [split_time_eq_of_pyRange s e n hn rl hpr] at hts
      cases hts
      cases rl with
      | nil => simp at hp
      | cons r0 rtl =>
        obtain ⟨k, rfl⟩ : ∃ k, n = k + 1 := ⟨n - 1, by omega⟩
        rw [List.map_cons, List.take_succ_cons, List.drop_succ_cons,
          List.drop_zero] at hp
        cases hends : ((rtl.map (fun seconds => add_seconds s (seconds * 1000000))).take k
            ++ [e]) with
        | nil => simp at hends
        | cons e0 etl =>
          have hr0 : r0 = 0 :=
            pyRange_zero_head _ _ _ hpr r0 (by rw [List.head?_cons])
          rw [hends] at hp
          rw [List.zip_cons_cons, List.head?_cons, Option.some.injEq] at hp
          subst hp
          simp only [hr0]
          norm_num [add_seconds_zero]

/-- C7: for a cue whose text exceeds the 120-character threshold, whenever
`resegment` returns it emits at most `len(lines)` cues, where `lines` is
the sentence split of the cue's text, and the first emitted cue's start
time equals the original cue's start time. -/
theorem resegment_long_bound_first (fuel : Nat) (cue : Cue)
    (lines : List (List Char)) (cues : List Cue)
    (hlong : 120 < cue.2.2.length)
    (hlines : split_text_by_sentences fuel cue.2.2 120 = some lines)
    (hres : resegment fuel cue = some cues) :
    cues.length ≤ lines.length ∧ ∀ c, cues.head? = some c → c.1 = cue.1 := by
  unfold resegment at hres
  rw [if_neg (by omega)] at hres
  unfold split_subtitle at hres
  simp only [hlines] at hres
  cases hst : split_time cue.1 cue.2.1 lines.length with
  | none => simp [hst] at hres
  | some times =>
    simp only [hst, Option.some.injEq] at hres
    subst hres
    constructor
    · rw [List.length_zipWith]; omega
    · intro c hc
      obtain ⟨line, se, _, hs, rfl⟩ := zipWith_head_eq _ lines times c hc
      exact split_time_head cue.1 cue.2.1 lines.length times hst se hs

set_option maxRecDepth 8192 in
/-- Witness for C7: a 131-character cue text over `(00:00:00, 00:00:40)`
splitting into two sentence chunks and two time intervals. -/
theorem resegment_long_bound_first_witness :
    ([((0 : Time), (10000000 : Time), List.replicate 119 'x' ++ ['.']),
        ((10000000 : Time), (40000000 : Time), List.replicate 10 'y')] : List Cue).length ≤
      ([List.replicate 119 'x' ++ ['.'], List.replicate 10 'y'] :
        List (List Char)).length ∧
      ∀ c, ([((0 : Time), (10000000 : Time), List.replicate 119 'x' ++ ['.']),
          ((10000000 : Time), (40000000 : Time), List.replicate 10 'y')] :
          List Cue).head? = some c →
        c.1 = ((0 : Time), (40000000 : Time),
          List.replicate 119 'x' ++ '.' :: ' ' :: List.replicate 10 'y').1 :=
  resegment_long_bound_first 2
    ((0 : Time), (40000000 : Time),
      List.replicate 119 'x' ++ '.' :: ' ' :: List.replicate 10 'y')
    [List.replicate 119 'x' ++ ['.'], List.replicate 10 'y']
    [((0 : Time), (10000000 : Time), List.replicate 119 'x' ++ ['.']),
      ((10000000 : Time), (40000000 : Time), List.replicate 10 'y')]
    (by decide) (by decide) (by decide)
